import Mathlib

/-!
Verification of the `eslint-sort-imports` rule (src/sort-imports.ts).

The rule walks the import declarations of a file in source order, reports
ordering violations between adjacent declarations and inside specifier
lists, and attaches to every report a fix that replaces the whole span
of import declarations with a freshly sorted rendering.

This file gives a shallow embedding of the rule.  An import declaration is
represented structurally: its kind flag, its specifier list, its module
string, the textual decomposition of its source text around the named
specifiers (prefix, separators, suffix), its byte range and its line span.
JavaScript string comparison (`<`, `>` on strings) compares UTF-16 code
units, which we model exactly; `Array.prototype.sort` (a stable sort) is
modelled as a stable insertion sort that moves each element left past
exactly the elements that compare greater.
-/

/-- One UTF-16 code unit list of a character (surrogate pair for the
supplementary planes), as JavaScript strings store it. -/
def charUtf16 (c : Char) : List Nat :=
  if c.toNat < 0x10000 then [c.toNat]
  else [0xD800 + (c.toNat - 0x10000) / 0x400, 0xDC00 + (c.toNat - 0x10000) % 0x400]

/-- The UTF-16 code units of a string. -/
def jsUnits (s : String) : List Nat :=
  (s.data.map charUtf16).flatten

/-- Lexicographic comparison of code-unit lists. -/
def unitsLt : List Nat → List Nat → Bool
  | [], [] => false
  | [], _ :: _ => true
  | _ :: _, [] => false
  | a :: as, b :: bs => if a < b then true else if b < a then false else unitsLt as bs

/-- JavaScript `a < b` on strings: code-unit lexicographic order. -/
def jsLt (a b : String) : Bool := unitsLt (jsUnits a) (jsUnits b)

/-- JavaScript `a > b` on strings. -/
def jsGt (a b : String) : Bool := unitsLt (jsUnits b) (jsUnits a)

/-- Number of newline characters in a string (drives `loc` line spans). -/
def countNewlines (s : String) : Nat := s.data.countP (fun c => c = '\n')

/-- The four member-syntax groups of the rule (source enum
`MemberSyntaxSortOrder`). -/
inductive MemberSyntaxSortOrder where
  | none
  | all
  | multiple
  | single
deriving DecidableEq

/-- The `typeSortStrategy` option. -/
inductive TypeSortStrategy where
  | mixed
  | before
  | after
deriving DecidableEq

/-- The rule options (source `Options`), after applying defaults. -/
structure Config where
  ignoreCase : Bool
  ignoreMemberSort : Bool
  memberSyntaxSortOrder : List MemberSyntaxSortOrder
  typeSortStrategy : TypeSortStrategy
deriving DecidableEq

/-- The default options of the rule (source `defaultOptions`). -/
def defaultConfig : Config :=
  { ignoreCase := false
    ignoreMemberSort := false
    memberSyntaxSortOrder :=
      [MemberSyntaxSortOrder.none, MemberSyntaxSortOrder.all,
       MemberSyntaxSortOrder.multiple, MemberSyntaxSortOrder.single]
    typeSortStrategy := TypeSortStrategy.after }

/-- A named import specifier (AST `ImportSpecifier`): its bound local name,
its source text, and whether the host comment lookup finds a comment
directly before or after it (`sourceCode.getCommentsBefore/After`). -/
structure NamedSpec where
  localName : String
  text : String
  hasComment : Bool
deriving DecidableEq

/-- One entry of an import declaration's specifier list. -/
inductive Spec where
  | namespaceS (localName : String)
  | defaultS (localName : String)
  | namedS (s : NamedSpec)
deriving DecidableEq

/-- The local bound name of a specifier (`specifier.local.name`). -/
def Spec.localNameOf : Spec → String
  | .namespaceS n => n
  | .defaultS n => n
  | .namedS s => s.localName

/-- An import declaration node, together with the textual decomposition of
its source range: `preText` is the text from the start of the declaration
to the start of its first named specifier (the whole declaration text when
it has no named specifier, with `postText = ""`), `sepTexts` are the texts
between consecutive named specifiers, and `postText` is the text from the
end of the last named specifier to the end of the declaration. -/
structure ImportDecl where
  isType : Bool
  specifiers : List Spec
  sourceValue : String
  preText : String
  sepTexts : List String
  postText : String
  rangeStart : Nat
  rangeEnd : Nat
  startLine : Nat
  endLine : Nat
deriving DecidableEq

/-- Source `getSortableName`: the local name, lower-cased under
`ignoreCase`. -/
def getSortableName (s : NamedSpec) (ignoreCase : Bool) : String :=
  if ignoreCase then s.localName.toLower else s.localName

/-- Source `usedMemberSyntax`: the group of a declaration, derived from the
type of its first specifier. -/
def usedMemberSyntax (d : ImportDecl) : MemberSyntaxSortOrder :=
  match d.specifiers.head? with
  | some (.namespaceS _) => .all
  | some (.defaultS _) => .single
  | some (.namedS _) => .multiple
  | Option.none => .none

/-- JavaScript `Array.prototype.indexOf`: index of the first occurrence, or
`-1` when absent. -/
def jsIndexOfAux {α : Type} [DecidableEq α] (x : α) : List α → Nat → Option Nat
  | [], _ => Option.none
  | y :: ys, i => if y = x then some i else jsIndexOfAux x ys (i + 1)

/-- JavaScript `Array.prototype.indexOf` as an integer. -/
def jsIndexOf {α : Type} [DecidableEq α] (x : α) (l : List α) : Int :=
  match jsIndexOfAux x l 0 with
  | some i => (i : Int)
  | Option.none => -1

/-- Source `getMemberParameterGroupIndex`: index of the declaration's group
in the configured order. -/
def getMemberParameterGroupIndex (d : ImportDecl) (order : List MemberSyntaxSortOrder) : Int :=
  jsIndexOf (usedMemberSyntax d) order

/-- JavaScript array indexing with a possibly negative index: `undefined`
is modelled as `Option.none`. -/
def jsAt {α : Type} (l : List α) (i : Int) : Option α :=
  if i < 0 then Option.none else l.get? i.toNat

/-- Source `getFirstLocalMemberName`: the local name of the first
specifier, or the module source string when there is none. -/
def getFirstLocalMemberName (d : ImportDecl) : String :=
  match d.specifiers.head? with
  | some s => s.localNameOf
  | Option.none => d.sourceValue

/-- Source `isLineBetween`: `firstNode.loc.end.line < secondNode.loc.start.line - 1`. -/
def isLineBetween (a b : ImportDecl) : Bool :=
  (a.endLine : Int) < (b.startLine : Int) - 1

/-- The named specifiers of a declaration (source
`node.specifiers.filter(s => s.type === "ImportSpecifier")`). -/
def importSpecifiers (d : ImportDecl) : List NamedSpec :=
  d.specifiers.filterMap fun s =>
    match s with
    | .namedS n => some n
    | _ => Option.none

/-- Source `findIndex((name, index, array) => array[index - 1] > name)`:
the first position whose name sorts strictly before its predecessor
(position 0 never matches because `array[-1]` is `undefined`); `-1`
(modelled as `Option.none`) when the list is sorted. -/
def firstUnsortedIndex : List String → Option Nat
  | a :: b :: rest =>
    if jsGt a b then some 1 else (firstUnsortedIndex (b :: rest)).map (· + 1)
  | _ => Option.none

/-- The specifier sort comparator of `sortAndFixAllNodes` (line 108-113):
`aName > bName ? 1 : -1`. -/
def specCmp (ignoreCase : Bool) (a b : NamedSpec) : Int :=
  if jsGt (getSortableName a ignoreCase) (getSortableName b ignoreCase) then 1 else -1

/-- The case-normalized first local member name used by the pairwise check
and the declaration comparator (lowercased when `ignoreCase`). -/
def normalizedFirstName (cfg : Config) (d : ImportDecl) : String :=
  if cfg.ignoreCase then (getFirstLocalMemberName d).toLower else getFirstLocalMemberName d

/-- The declaration sort comparator of `sortAndFixAllNodes` (lines
147-171); `a` is the earlier element (`previous`), `b` the later
(`current`). -/
def declCmp (cfg : Config) (a b : ImportDecl) : Int :=
  if cfg.typeSortStrategy ≠ .mixed ∧ b.isType ≠ a.isType then
    if (b.isType = true ∧ cfg.typeSortStrategy = .before) ∨
       (a.isType = true ∧ cfg.typeSortStrategy = .after) then 1 else -1
  else if getMemberParameterGroupIndex b cfg.memberSyntaxSortOrder ≠
          getMemberParameterGroupIndex a cfg.memberSyntaxSortOrder then
    if getMemberParameterGroupIndex b cfg.memberSyntaxSortOrder <
       getMemberParameterGroupIndex a cfg.memberSyntaxSortOrder then 1 else -1
  else if normalizedFirstName cfg a ≠ "" ∧ normalizedFirstName cfg b ≠ "" then
    if jsLt (normalizedFirstName cfg b) (normalizedFirstName cfg a) then 1 else -1
  else 0

/-- Insert `x` into the reversed accumulator of an insertion sort: `x`
moves left (deeper into the reversed list) past exactly the elements that
compare greater than it. -/
def insertRev {α : Type} (c : α → α → Int) (x : α) : List α → List α
  | [] => [x]
  | y :: ys => if c y x > 0 then y :: insertRev c x ys else x :: y :: ys

/-- Model of JavaScript `Array.prototype.sort` with comparator `c`: a
stable insertion sort (each element moves left past exactly the elements
greater than it under `c`). -/
def sortJS {α : Type} (c : α → α → Int) (l : List α) : List α :=
  (l.foldl (fun acc x => insertRev c x acc) []).reverse

/-- Interleave element texts with separator texts, as the specifier
rebuild of `sortAndFixAllNodes` does (the separator following sorted
position `i` is the original separator at position `i`). -/
def interleave : List String → List String → String
  | [], _ => ""
  | [t], _ => t
  | t :: ts, s :: ss => t ++ s ++ interleave ts ss
  | t :: ts, [] => t ++ interleave ts []

/-- The source text of a declaration, reassembled from its decomposition. -/
def declText (d : ImportDecl) : String :=
  d.preText ++ interleave ((importSpecifiers d).map (fun s => s.text)) d.sepTexts ++ d.postText

/-- Replace the named specifiers of a specifier list, positionally, by a
new list of named specifiers. -/
def replaceNamed : List Spec → List NamedSpec → List Spec
  | [], _ => []
  | .namedS _ :: rest, n :: ns => .namedS n :: replaceNamed rest ns
  | .namedS s :: rest, [] => .namedS s :: replaceNamed rest []
  | .namespaceS n :: rest, ns => .namespaceS n :: replaceNamed rest ns
  | .defaultS n :: rest, ns => .defaultS n :: replaceNamed rest ns

/-- The member-sorting step of `sortAndFixAllNodes` (lines 96-125): when
member sorting is enabled and the named specifiers are unsorted, rebuild
the declaration with the named specifiers sorted (no comment check here). -/
def memberFixDecl (cfg : Config) (d : ImportDecl) : ImportDecl :=
  if cfg.ignoreMemberSort then d
  else
    match firstUnsortedIndex ((importSpecifiers d).map (fun s => getSortableName s cfg.ignoreCase)) with
    | Option.none => d
    | some _ =>
      { d with specifiers :=
          replaceNamed d.specifiers (sortJS (specCmp cfg.ignoreCase) (importSpecifiers d)) }

/-- The `rich`/`fixed` pair of `sortAndFixAllNodes`: the original node
paired with its (possibly member-fixed) rendering. -/
def richFix (cfg : Config) (d : ImportDecl) : ImportDecl × ImportDecl :=
  (d, memberFixDecl cfg d)

/-- Group a list into maximal runs, starting a new run exactly where `brk`
holds between consecutive elements (the `sections` reduce of
`sortAndFixAllNodes`, lines 127-142; the empty input yields `[[]]` as the
reduce's initial accumulator does). -/
def sectionsBy {α : Type} (brk : α → α → Bool) : List α → List (List α)
  | [] => [[]]
  | [d] => [[d]]
  | d :: d' :: rest =>
    match sectionsBy brk (d' :: rest) with
    | s :: ss => if brk d d' then [d] :: s :: ss else (d :: s) :: ss
    | [] => [[d]]

/-- The run-break predicate used on `rich` pairs: `isLineBetween` on the
original nodes. -/
def pairBrk (u v : ImportDecl × ImportDecl) : Bool := isLineBetween u.1 v.1

/-- The sorted pair list of `sortAndFixAllNodes`: member-fix every
declaration, group into sections, sort each section with the declaration
comparator applied to the ORIGINAL nodes (source reads `a[0]`, `b[0]`),
and flatten. -/
def fixedPairs (cfg : Config) (decls : List ImportDecl) : List (ImportDecl × ImportDecl) :=
  ((sectionsBy pairBrk (decls.map (richFix cfg))).map
    (sortJS (fun u v => declCmp cfg u.1 v.1))).flatten

/-- The declarations of the fixed rendering, in output order. -/
def fixedDecls (cfg : Config) (decls : List ImportDecl) : List ImportDecl :=
  (fixedPairs cfg decls).map (fun u => u.2)

/-- Join slot texts with the original gap texts between the original slot
positions (the final reduce of `sortAndFixAllNodes`, line 175). -/
def joinWithGaps : List String → List String → String
  | [], _ => ""
  | [t], _ => t
  | t :: ts, g :: gs => t ++ g ++ joinWithGaps ts gs
  | t :: ts, [] => t ++ joinWithGaps ts []

/-- Source `sortAndFixAllNodes`: the replacement text for the whole span
of import declarations.  `gaps` are the `betweens` substrings of the
original source between consecutive declarations. -/
def sortAndFixAllNodes (cfg : Config) (decls : List ImportDecl) (gaps : List String) : String :=
  joinWithGaps ((fixedDecls cfg decls).map declText) gaps

/-- A violation report (`messageId` plus its interpolated data; the
`wrongOrder` data entries are `memberSyntaxSortOrder[index]`, which is
`undefined` — `Option.none` — for a `-1` index). -/
inductive Report where
  | memberAlphabetical (memberName : String)
  | typeOrder (typeSortStrategy : TypeSortStrategy)
  | wrongOrder (syntaxA syntaxB : Option MemberSyntaxSortOrder)
  | alphabeticalOrder
deriving DecidableEq

/-- A report together with its fix: `Option.none` models a null fix, and a
present fix is a byte range with its replacement text. -/
structure Reported where
  report : Report
  fix : Option ((Nat × Nat) × String)
deriving DecidableEq

/-- The fix every reporter builds (lines 205-210 etc.):
`replaceTextRange([allDeclarations[0].range[0],
allDeclarations[last].range[1]], sortAndFixAllNodes(...))`. -/
def fullFix (cfg : Config) (decls : List ImportDecl) (gaps : List String) :
    Option ((Nat × Nat) × String) :=
  match decls.head?, decls.getLast? with
  | some a, some b => some ((a.rangeStart, b.rangeEnd), sortAndFixAllNodes cfg decls gaps)
  | _, _ => Option.none

/-- The pairwise ordering check of the `ImportDeclaration` visitor (lines
182-244), for a `cur` declaration adjacent to a `prev` declaration. -/
def checkPair (cfg : Config) (prev cur : ImportDecl) : Option Report :=
  if cfg.typeSortStrategy ≠ .mixed ∧ cur.isType ≠ prev.isType then
    if (cur.isType = true ∧ cfg.typeSortStrategy = .before) ∨
       (prev.isType = true ∧ cfg.typeSortStrategy = .after) then
      some (.typeOrder cfg.typeSortStrategy)
    else Option.none
  else if getMemberParameterGroupIndex cur cfg.memberSyntaxSortOrder ≠
          getMemberParameterGroupIndex prev cfg.memberSyntaxSortOrder then
    if getMemberParameterGroupIndex cur cfg.memberSyntaxSortOrder <
       getMemberParameterGroupIndex prev cfg.memberSyntaxSortOrder then
      some (.wrongOrder
        (jsAt cfg.memberSyntaxSortOrder (getMemberParameterGroupIndex cur cfg.memberSyntaxSortOrder))
        (jsAt cfg.memberSyntaxSortOrder (getMemberParameterGroupIndex prev cfg.memberSyntaxSortOrder)))
    else Option.none
  else if normalizedFirstName cfg prev ≠ "" ∧ normalizedFirstName cfg cur ≠ "" ∧
          jsLt (normalizedFirstName cfg cur) (normalizedFirstName cfg prev) then
    some .alphabeticalOrder
  else Option.none

/-- The member-sort check of the visitor (lines 248-259): unless
`ignoreMemberSort`, report the local name of the specifier at the first
unsorted position. -/
def memberCheck (cfg : Config) (d : ImportDecl) : Option Report :=
  if cfg.ignoreMemberSort then Option.none
  else
    match firstUnsortedIndex ((importSpecifiers d).map (fun s => getSortableName s cfg.ignoreCase)) with
    | Option.none => Option.none
    | some i =>
      some (.memberAlphabetical ((((importSpecifiers d).get? i).map
        (fun s => s.localName)).getD ""))

/-- A pairwise report together with its fix (always the full-span fix). -/
def pairReported (cfg : Config) (decls : List ImportDecl) (gaps : List String)
    (prev cur : ImportDecl) : Option Reported :=
  (checkPair cfg prev cur).map (fun r => ⟨r, fullFix cfg decls gaps⟩)

/-- A member report together with its fix: the fix is null when some named
specifier of the declaration has an adjacent comment (lines 260-264). -/
def memberReported (cfg : Config) (decls : List ImportDecl) (gaps : List String)
    (d : ImportDecl) : Option Reported :=
  (memberCheck cfg d).map fun r =>
    ⟨r, if (importSpecifiers d).any (fun s => s.hasComment) then Option.none
        else fullFix cfg decls gaps⟩

/-- The visitor walk: for each declaration, the pairwise check against the
previous declaration (skipped across a run break), then the member check. -/
def analyzeAux (cfg : Config) (decls : List ImportDecl) (gaps : List String) :
    Option ImportDecl → List ImportDecl → List Reported
  | _, [] => []
  | prev?, d :: rest =>
    (match prev? with
     | some prev =>
       if isLineBetween prev d then [] else (pairReported cfg decls gaps prev d).toList
     | Option.none => []) ++
    (memberReported cfg decls gaps d).toList ++
    analyzeAux cfg decls gaps (some d) rest

/-- The full analysis of a file: the reports of the rule, in visit order,
each with its fix. -/
def analyze (cfg : Config) (decls : List ImportDecl) (gaps : List String) : List Reported :=
  analyzeAux cfg decls gaps Option.none decls

/-- Reassign line spans to a list of declarations laid out from `base`
with the given gap texts between them (what a re-parse of the fixed
rendering sees: each declaration spans `countNewlines` of its text, and
consecutive start lines differ by the newlines of the gap). -/
def relayout (base : Nat) : List ImportDecl → List String → List ImportDecl
  | [], _ => []
  | d :: ds, gs =>
    { d with startLine := base, endLine := base + countNewlines (declText d) } ::
      relayout (base + countNewlines (declText d) + countNewlines (gs.headD "")) ds gs.tail

/-- The declaration list of the fixed source, as a re-parse sees it: the
fixed declarations at their new slots, with recomputed line spans (the gap
texts are reused verbatim, so they are unchanged). -/
def fixedFile (cfg : Config) (decls : List ImportDecl) (gaps : List String) : List ImportDecl :=
  match decls.head? with
  | some d => relayout d.startLine (fixedDecls cfg decls) gaps
  | Option.none => []

/-! ### Generic lemmas about the sort and run-grouping combinators -/

theorem insertRev_split {α : Type} (c : α → α → Int) (x : α) (l : List α) :
    ∃ u v, l = u ++ v ∧ insertRev c x l = u ++ x :: v ∧ ∀ y ∈ u, c y x > 0 := by
  induction l with
  | nil => exact ⟨[], [], rfl, rfl, by simp⟩
  | cons y ys ih =>
    by_cases h : c y x > 0
    · obtain ⟨u, v, h1, h2, h3⟩ := ih
      refine ⟨y :: u, v, by simp [h1], by simp [insertRev, h, h2], ?_⟩
      intro z hz
      rcases List.mem_cons.mp hz with rfl | hz
      · exact h
      · exact h3 z hz
    · exact ⟨[], y :: ys, rfl, by simp [insertRev, h], by simp⟩

theorem insertRev_perm {α : Type} (c : α → α → Int) (x : α) (l : List α) :
    (insertRev c x l).Perm (x :: l) := by
  obtain ⟨u, v, h1, h2, _⟩ := insertRev_split c x l
  rw [h2, h1]
  exact List.perm_middle

theorem foldlInsert_perm {α : Type} (c : α → α → Int) :
    ∀ (l acc : List α), (l.foldl (fun ac x => insertRev c x ac) acc).Perm (l ++ acc)
  | [], _ => by simp
  | x :: xs, acc => by
    have ih := foldlInsert_perm c xs (insertRev c x acc)
    simp only [List.foldl_cons]
    refine ih.trans ?_
    refine ((insertRev_perm c x acc).append_left xs).trans ?_
    exact List.perm_middle

theorem sortJS_perm {α : Type} (c : α → α → Int) (l : List α) : (sortJS c l).Perm l := by
  unfold sortJS
  have h := foldlInsert_perm c l []
  simpa using (List.reverse_perm _).trans h

theorem insertRev_mem {α : Type} (c : α → α → Int) (x a : α) (l : List α) (h : a ∈ l) :
    a ∈ insertRev c x l :=
  ((insertRev_perm c x l).mem_iff).mpr (List.mem_cons_of_mem x h)

theorem insertRev_self_mem {α : Type} (c : α → α → Int) (x : α) (l : List α) :
    x ∈ insertRev c x l :=
  ((insertRev_perm c x l).mem_iff).mpr (List.mem_cons_self x l)

theorem insertRev_sublist {α : Type} (c : α → α → Int) (x : α) {s l : List α}
    (h : s.Sublist l) : s.Sublist (insertRev c x l) := by
  obtain ⟨u, v, h1, h2, _⟩ := insertRev_split c x l
  rw [h2]
  refine (h1 ▸ h).trans ?_
  exact (List.sublist_cons_self x v).append_left u

theorem insertRev_pair {α : Type} (c : α → α → Int) (x a : α) (l : List α)
    (ha : a ∈ l) (hc : c a x ≤ 0) : List.Sublist [x, a] (insertRev c x l) := by
  obtain ⟨u, v, h1, h2, h3⟩ := insertRev_split c x l
  rw [h2]
  have hav : a ∈ v := by
    rcases List.mem_append.mp (h1 ▸ ha) with hu | hv
    · exact absurd (h3 a hu) (by omega)
    · exact hv
  have h4 : List.Sublist [x, a] (x :: v) := (List.singleton_sublist.mpr hav).cons₂ x
  exact h4.trans (List.sublist_append_right u (x :: v))

theorem foldlInsert_mem {α : Type} (c : α → α → Int) (a : α) :
    ∀ (l acc : List α), a ∈ acc → a ∈ l.foldl (fun ac x => insertRev c x ac) acc
  | [], _, h => h
  | x :: xs, acc, h => foldlInsert_mem c a xs _ (insertRev_mem c x a acc h)

theorem foldlInsert_sublist {α : Type} (c : α → α → Int) (s : List α) :
    ∀ (l acc : List α), s.Sublist acc →
      s.Sublist (l.foldl (fun ac x => insertRev c x ac) acc)
  | [], _, h => h
  | x :: xs, acc, h => foldlInsert_sublist c s xs _ (insertRev_sublist c x h)

theorem sortJS_stable {α : Type} (c : α → α → Int) (p q r : List α) (a b : α)
    (hc : c a b ≤ 0) : List.Sublist [a, b] (sortJS c (p ++ a :: (q ++ b :: r))) := by
  unfold sortJS
  have e : p ++ a :: (q ++ b :: r) = (((p ++ [a]) ++ q) ++ [b]) ++ r := by simp
  rw [e, List.foldl_append, List.foldl_append, List.foldl_append]
  have h1 : a ∈ List.foldl (fun ac x => insertRev c x ac) [] (p ++ [a]) := by
    rw [List.foldl_append]
    exact insertRev_self_mem c a _
  have h2 : a ∈ List.foldl (fun ac x => insertRev c x ac)
      (List.foldl (fun ac x => insertRev c x ac) [] (p ++ [a])) q :=
    foldlInsert_mem c a q _ h1
  have h3 : List.Sublist [b, a] (List.foldl (fun ac x => insertRev c x ac)
      (List.foldl (fun ac x => insertRev c x ac)
        (List.foldl (fun ac x => insertRev c x ac) [] (p ++ [a])) q) [b]) :=
    insertRev_pair c b a _ h2 hc
  have h4 := foldlInsert_sublist c [b, a] r _ h3
  simpa using h4.reverse

theorem sectionsBy_cons_cons {α : Type} (brk : α → α → Bool) (d d' : α) (rest : List α) :
    sectionsBy brk (d :: d' :: rest) =
      match sectionsBy brk (d' :: rest) with
      | s :: ss => if brk d d' then [d] :: s :: ss else (d :: s) :: ss
      | [] => [[d]] := by
  conv_lhs => rw [sectionsBy.eq_def]

theorem sectionsBy_ne_nil {α : Type} (brk : α → α → Bool) :
    ∀ l : List α, sectionsBy brk l ≠ []
  | [] => by simp [sectionsBy]
  | [d] => by simp [sectionsBy]
  | d :: d' :: rest => by
    rw [sectionsBy_cons_cons]
    cases h : sectionsBy brk (d' :: rest) with
    | nil => simp
    | cons s ss => by_cases hb : brk d d' <;> simp [hb]

theorem sectionsBy_flatten {α : Type} (brk : α → α → Bool) :
    ∀ l : List α, (sectionsBy brk l).flatten = l
  | [] => rfl
  | [d] => rfl
  | d :: d' :: rest => by
    have ih := sectionsBy_flatten brk (d' :: rest)
    rw [sectionsBy_cons_cons]
    cases h : sectionsBy brk (d' :: rest) with
    | nil => exact absurd h (sectionsBy_ne_nil brk _)
    | cons s ss =>
      rw [h] at ih
      simp only [List.flatten_cons] at ih
      by_cases hb : brk d d' <;> simp [hb, ih]

theorem sectionsBy_append {α : Type} (brk : α → α → Bool) (x y : α) (r : List α)
    (hb : brk x y = true) :
    ∀ p : List α, sectionsBy brk (p ++ x :: y :: r) =
      sectionsBy brk (p ++ [x]) ++ sectionsBy brk (y :: r)
  | [] => by
    simp only [List.nil_append]
    rw [sectionsBy_cons_cons]
    cases h : sectionsBy brk (y :: r) with
    | nil => exact absurd h (sectionsBy_ne_nil brk _)
    | cons s ss => simp [hb, sectionsBy]
  | d :: p' => by
    have ih := sectionsBy_append brk x y r hb p'
    cases p' with
    | nil =>
      simp only [List.nil_append] at ih
      simp only [List.cons_append, List.nil_append]
      cases hS : sectionsBy brk (y :: r) with
      | nil => exact absurd hS (sectionsBy_ne_nil brk _)
      | cons s ss =>
        have ih' : sectionsBy brk (x :: y :: r) = [x] :: s :: ss := by
          rw [ih, hS]; simp [sectionsBy]
        rw [sectionsBy_cons_cons, ih']
        rw [show sectionsBy brk [d, x] =
            if brk d x then [[d], [x]] else [[d, x]] from by
          rw [sectionsBy_cons_cons]; simp [sectionsBy]]
        by_cases hdx : brk d x <;> simp [hdx]
    | cons e p'' =>
      simp only [List.cons_append] at ih ⊢
      cases hS : sectionsBy brk (e :: (p'' ++ [x])) with
      | nil => exact absurd hS (sectionsBy_ne_nil brk _)
      | cons s₀ ss₀ =>
        have lhsInner : sectionsBy brk (e :: (p'' ++ x :: y :: r)) =
            s₀ :: (ss₀ ++ sectionsBy brk (y :: r)) := by
          rw [ih, hS]; simp
        rw [sectionsBy_cons_cons, lhsInner, sectionsBy_cons_cons, hS]
        by_cases hde : brk d e <;> simp [hde]

theorem flatten_map_sortJS_perm {α : Type} (c : α → α → Int) :
    ∀ S : List (List α), ((S.map (sortJS c)).flatten).Perm S.flatten
  | [] => List.Perm.refl _
  | s :: S => by
    simp only [List.map_cons, List.flatten_cons]
    exact (sortJS_perm c s).append (flatten_map_sortJS_perm c S)

theorem sublist_flatten_of_mem {α β : Type} (f : List α → List β) {s : List α} {x : List β} :
    ∀ S : List (List α), s ∈ S → x.Sublist (f s) → x.Sublist ((S.map f).flatten)
  | [], h, _ => absurd h (List.not_mem_nil s)
  | t :: S, h, hx => by
    simp only [List.map_cons, List.flatten_cons]
    rcases List.mem_cons.mp h with rfl | h
    · exact hx.trans (List.sublist_append_left _ _)
    · exact (sublist_flatten_of_mem f S h hx).trans (List.sublist_append_right _ _)

/-! ### Lemmas about the JavaScript primitives -/

theorem unitsLt_irrefl : ∀ l : List Nat, unitsLt l l = false
  | [] => rfl
  | a :: as => by simp [unitsLt, unitsLt_irrefl as]

theorem jsGt_self (a : String) : jsGt a a = false := by
  simp [jsGt, unitsLt_irrefl]

theorem jsIndexOfAux_mem {α : Type} [DecidableEq α] (x : α) :
    ∀ (l : List α) (n : Nat), x ∈ l →
      ∃ i, jsIndexOfAux x l n = some i ∧ n ≤ i ∧ l.get? (i - n) = some x
  | [], _, h => absurd h (List.not_mem_nil x)
  | y :: ys, n, h => by
    by_cases hyx : y = x
    · exact ⟨n, by simp [jsIndexOfAux, hyx], le_refl n, by simp [hyx]⟩
    · have hm : x ∈ ys := by
        rcases List.mem_cons.mp h with rfl | hm
        · exact absurd rfl hyx
        · exact hm
      obtain ⟨i, h1, h2, h3⟩ := jsIndexOfAux_mem x ys (n + 1) hm
      refine ⟨i, by simp [jsIndexOfAux, hyx, h1], by omega, ?_⟩
      have he : i - n = (i - (n + 1)) + 1 := by omega
      rw [he, List.get?_cons_succ]
      exact h3

theorem jsAt_jsIndexOf {α : Type} [DecidableEq α] (x : α) (l : List α) (h : x ∈ l) :
    jsAt l (jsIndexOf x l) = some x := by
  obtain ⟨i, h1, _, h3⟩ := jsIndexOfAux_mem x l 0 h
  simp only [jsIndexOf, h1, jsAt]
  rw [if_neg (by omega)]
  simpa using h3

/-! ### Lemmas about the first-unsorted-position scan -/

theorem fui_none_iff : ∀ ns : List String,
    firstUnsortedIndex ns = Option.none ↔
      List.Chain' (fun x y => jsGt x y = false) ns
  | [] => by simp [firstUnsortedIndex]
  | [a] => by simp [firstUnsortedIndex]
  | a :: b :: rest => by
    rw [List.chain'_cons]
    by_cases hab : jsGt a b
    · simp [firstUnsortedIndex, hab]
    · simp only [firstUnsortedIndex, if_neg hab, Option.map_eq_none']
      simp only [hab, Bool.false_eq_true, not_false_eq_true, true_and]
      exact fui_none_iff (b :: rest)

theorem fui_some_spec : ∀ (ns : List String) (i : Nat),
    firstUnsortedIndex ns = some i →
    1 ≤ i ∧ i < ns.length ∧
    (∃ x y, ns.get? (i - 1) = some x ∧ ns.get? i = some y ∧ jsGt x y = true) ∧
    (∀ j x y, j + 1 < i → ns.get? j = some x → ns.get? (j + 1) = some y →
      jsGt x y = false)
  | [], i, h => by simp [firstUnsortedIndex] at h
  | [a], i, h => by simp [firstUnsortedIndex] at h
  | a :: b :: rest, i, h => by
    by_cases hab : jsGt a b
    · simp only [firstUnsortedIndex, if_pos hab, Option.some.injEq] at h
      subst h
      refine ⟨le_refl 1, by simp, ⟨a, b, rfl, rfl, hab⟩, ?_⟩
      intro j x y hj
      omega
    · simp only [firstUnsortedIndex, if_neg hab] at h
      cases he : firstUnsortedIndex (b :: rest) with
      | none => rw [he] at h; simp at h
      | some i' =>
        rw [he] at h
        simp only [Option.map_some', Option.some.injEq] at h
        subst h
        obtain ⟨h1, h2, ⟨x, y, hx, hy, hxy⟩, hmin⟩ := fui_some_spec (b :: rest) i' he
        refine ⟨by omega, by simp only [List.length_cons] at h2 ⊢; omega, ⟨x, y, ?_, ?_, hxy⟩, ?_⟩
        · have he1 : i' + 1 - 1 = (i' - 1) + 1 := by omega
          rw [he1, List.get?_cons_succ]
          exact hx
        · rw [List.get?_cons_succ]
          exact hy
        · intro j u v hj hu hv
          cases j with
          | zero =>
            simp only [List.get?_cons_zero, Option.some.injEq] at hu
            rw [List.get?_cons_succ, List.get?_cons_zero] at hv
            simp only [Option.some.injEq] at hv
            subst hu; subst hv
            simpa using hab
          | succ k =>
            rw [List.get?_cons_succ] at hu hv
            exact hmin k u v (by omega) hu hv

theorem fui_short : ∀ ns : List String, ns.length ≤ 1 →
    firstUnsortedIndex ns = Option.none
  | [], _ => rfl
  | [_], _ => rfl
  | _ :: _ :: _, h => by simp at h

/-! ### Lemmas about the analysis walk -/

theorem memberReported_eq (cfg : Config) (decls : List ImportDecl) (gaps : List String)
    (d : ImportDecl) (rep : Report) (h : memberCheck cfg d = some rep) :
    memberReported cfg decls gaps d =
      some ⟨rep, if (importSpecifiers d).any (fun s => s.hasComment) then Option.none
                 else fullFix cfg decls gaps⟩ := by
  simp [memberReported, h]

theorem analyzeAux_cons (cfg : Config) (decls : List ImportDecl) (gaps : List String)
    (prev? : Option ImportDecl) (e : ImportDecl) (rest : List ImportDecl) :
    analyzeAux cfg decls gaps prev? (e :: rest) =
      (match prev? with
       | some prev =>
         if isLineBetween prev e then [] else (pairReported cfg decls gaps prev e).toList
       | Option.none => []) ++
      (memberReported cfg decls gaps e).toList ++
      analyzeAux cfg decls gaps (some e) rest := rfl

theorem memberReported_mem_analyzeAux (cfg : Config) (decls : List ImportDecl)
    (gaps : List String) :
    ∀ (prev? : Option ImportDecl) (rest : List ImportDecl) (d : ImportDecl) (r : Reported),
      d ∈ rest → memberReported cfg decls gaps d = some r →
      r ∈ analyzeAux cfg decls gaps prev? rest
  | _, [], d, _, h, _ => absurd h (List.not_mem_nil d)
  | prev?, e :: rest, d, r, h, hm => by
    rw [analyzeAux_cons]
    rcases List.mem_cons.mp h with rfl | h
    · refine List.mem_append.mpr (Or.inl ?_)
      refine List.mem_append.mpr (Or.inr ?_)
      simp [hm]
    · refine List.mem_append.mpr (Or.inr ?_)
      exact memberReported_mem_analyzeAux cfg decls gaps (some e) rest d r h hm

theorem analyzeAux_fix (cfg : Config) (decls : List ImportDecl) (gaps : List String) :
    ∀ (prev? : Option ImportDecl) (rest : List ImportDecl) (r : Reported),
      r ∈ analyzeAux cfg decls gaps prev? rest →
      r.fix = Option.none ∨ r.fix = fullFix cfg decls gaps
  | _, [], r, h => absurd h (List.not_mem_nil r)
  | prev?, e :: rest, r, h => by
    rw [analyzeAux_cons] at h
    rcases List.mem_append.mp h with h | h
    · rcases List.mem_append.mp h with h | h
      · cases prev? with
        | none => simp at h
        | some p =>
          by_cases hl : isLineBetween p e = true
          · simp [hl] at h
          · cases hc : checkPair cfg p e with
            | none => simp [pairReported, hc, hl] at h
            | some rep =>
              simp only [pairReported, hc, Option.map_some'] at h
              rw [if_neg hl] at h
              simp only [Option.toList_some, List.mem_singleton] at h
              subst h
              right
              rfl
      · cases hc : memberCheck cfg e with
        | none => simp [memberReported, hc] at h
        | some rep =>
          rw [memberReported_eq cfg decls gaps e rep hc] at h
          simp only [Option.toList_some, List.mem_singleton] at h
          subst h
          by_cases hcm : (importSpecifiers e).any (fun s => s.hasComment) = true
          · left; simp [hcm]
          · right; simp [hcm]
    · exact analyzeAux_fix cfg decls gaps (some e) rest r h

/-! ### Claim C3: the type-strategy check -/

/-- C3: for an adjacent pair (prev `a`, cur `b`) in the same run with a
non-mixed `typeSortStrategy` and differing type-ness, a `typeOrder`
violation is reported exactly when (`b` is a type import and the strategy
is `before`) or (`a` is a type import and the strategy is `after`); and in
that configuration the pair can produce no other report (neither the
group-order nor the alphabetical check runs). -/
theorem c3_type_order_check : ∀ (cfg : Config) (a b : ImportDecl),
    cfg.typeSortStrategy ≠ TypeSortStrategy.mixed → b.isType ≠ a.isType →
    ((checkPair cfg a b = some (Report.typeOrder cfg.typeSortStrategy)) ↔
      ((b.isType = true ∧ cfg.typeSortStrategy = TypeSortStrategy.before) ∨
       (a.isType = true ∧ cfg.typeSortStrategy = TypeSortStrategy.after))) ∧
    (checkPair cfg a b = Option.none ∨
     checkPair cfg a b = some (Report.typeOrder cfg.typeSortStrategy)) := by
  intro cfg a b h1 h2
  by_cases hf : (b.isType = true ∧ cfg.typeSortStrategy = TypeSortStrategy.before) ∨
      (a.isType = true ∧ cfg.typeSortStrategy = TypeSortStrategy.after)
  · have he : checkPair cfg a b = some (Report.typeOrder cfg.typeSortStrategy) := by
      unfold checkPair
      rw [if_pos ⟨h1, h2⟩, if_pos hf]
    exact ⟨by simp [he, hf], Or.inr he⟩
  · have he : checkPair cfg a b = Option.none := by
      unfold checkPair
      rw [if_pos ⟨h1, h2⟩, if_neg hf]
    exact ⟨by simp [he, hf], Or.inl he⟩

def c3prev : ImportDecl :=
  { isType := true, specifiers := [Spec.defaultS "a"], sourceValue := "am",
    preText := "import type a from am;", sepTexts := [], postText := "",
    rangeStart := 0, rangeEnd := 22, startLine := 1, endLine := 1 }

def c3cur : ImportDecl :=
  { isType := false, specifiers := [Spec.defaultS "b"], sourceValue := "bm",
    preText := "import b from bm;", sepTexts := [], postText := "",
    rangeStart := 23, rangeEnd := 40, startLine := 2, endLine := 2 }

theorem c3_type_order_check_witness :
    (defaultConfig.typeSortStrategy ≠ TypeSortStrategy.mixed ∧
     c3cur.isType ≠ c3prev.isType) ∧
    (((checkPair defaultConfig c3prev c3cur =
        some (Report.typeOrder defaultConfig.typeSortStrategy)) ↔
      ((c3cur.isType = true ∧ defaultConfig.typeSortStrategy = TypeSortStrategy.before) ∨
       (c3prev.isType = true ∧ defaultConfig.typeSortStrategy = TypeSortStrategy.after))) ∧
     (checkPair defaultConfig c3prev c3cur = Option.none ∨
      checkPair defaultConfig c3prev c3cur =
        some (Report.typeOrder defaultConfig.typeSortStrategy))) :=
  ⟨⟨by decide, by decide⟩, c3_type_order_check defaultConfig c3prev c3cur (by decide) (by decide)⟩

/-! ### Claim C4: the group-order check -/

/-- C4: for an adjacent pair (prev `a`, cur `b`) not resolved by the type
check and with differing group indices in `memberSyntaxSortOrder`, a
`wrongOrder` violation is reported exactly when `b`'s group index is
strictly below `a`'s, and its data carries `b`'s group name as `syntaxA`
and `a`'s group name as `syntaxB` (the group names being well defined once
both shapes occur in the configured order). -/
theorem c4_wrong_order_check : ∀ (cfg : Config) (a b : ImportDecl),
    (cfg.typeSortStrategy = TypeSortStrategy.mixed ∨ b.isType = a.isType) →
    getMemberParameterGroupIndex b cfg.memberSyntaxSortOrder ≠
      getMemberParameterGroupIndex a cfg.memberSyntaxSortOrder →
    usedMemberSyntax a ∈ cfg.memberSyntaxSortOrder →
    usedMemberSyntax b ∈ cfg.memberSyntaxSortOrder →
    ((checkPair cfg a b =
        some (Report.wrongOrder (some (usedMemberSyntax b)) (some (usedMemberSyntax a)))) ↔
      getMemberParameterGroupIndex b cfg.memberSyntaxSortOrder <
        getMemberParameterGroupIndex a cfg.memberSyntaxSortOrder) := by
  intro cfg a b hty hidx hma hmb
  have hnot : ¬(cfg.typeSortStrategy ≠ TypeSortStrategy.mixed ∧ b.isType ≠ a.isType) := by
    rcases hty with h | h
    · exact fun hc => hc.1 h
    · exact fun hc => hc.2 h
  by_cases hlt : getMemberParameterGroupIndex b cfg.memberSyntaxSortOrder <
      getMemberParameterGroupIndex a cfg.memberSyntaxSortOrder
  · have he : checkPair cfg a b = some (Report.wrongOrder
        (jsAt cfg.memberSyntaxSortOrder
          (getMemberParameterGroupIndex b cfg.memberSyntaxSortOrder))
        (jsAt cfg.memberSyntaxSortOrder
          (getMemberParameterGroupIndex a cfg.memberSyntaxSortOrder))) := by
      unfold checkPair
      rw [if_neg hnot, if_pos hidx, if_pos hlt]
    have hA : jsAt cfg.memberSyntaxSortOrder
        (getMemberParameterGroupIndex b cfg.memberSyntaxSortOrder) =
          some (usedMemberSyntax b) :=
      jsAt_jsIndexOf (usedMemberSyntax b) cfg.memberSyntaxSortOrder hmb
    have hB : jsAt cfg.memberSyntaxSortOrder
        (getMemberParameterGroupIndex a cfg.memberSyntaxSortOrder) =
          some (usedMemberSyntax a) :=
      jsAt_jsIndexOf (usedMemberSyntax a) cfg.memberSyntaxSortOrder hma
    rw [he, hA, hB]
    simp [hlt]
  · have he : checkPair cfg a b = Option.none := by
      unfold checkPair
      rw [if_neg hnot, if_pos hidx, if_neg hlt]
    simp [he, hlt]

def c4prev : ImportDecl :=
  { isType := false, specifiers := [Spec.defaultS "a"], sourceValue := "am",
    preText := "import a from am;", sepTexts := [], postText := "",
    rangeStart := 0, rangeEnd := 17, startLine := 1, endLine := 1 }

def c4cur : ImportDecl :=
  { isType := false,
    specifiers := [Spec.namedS ⟨"b", "b", false⟩, Spec.namedS ⟨"c", "c", false⟩],
    sourceValue := "bm",
    preText := "import \x7b", sepTexts := [", "], postText := "\x7d from bm;",
    rangeStart := 18, rangeEnd := 42, startLine := 2, endLine := 2 }

theorem c4_wrong_order_check_witness :
    ((defaultConfig.typeSortStrategy = TypeSortStrategy.mixed ∨
      c4cur.isType = c4prev.isType) ∧
     getMemberParameterGroupIndex c4cur defaultConfig.memberSyntaxSortOrder ≠
       getMemberParameterGroupIndex c4prev defaultConfig.memberSyntaxSortOrder ∧
     usedMemberSyntax c4prev ∈ defaultConfig.memberSyntaxSortOrder ∧
     usedMemberSyntax c4cur ∈ defaultConfig.memberSyntaxSortOrder) ∧
    ((checkPair defaultConfig c4prev c4cur =
        some (Report.wrongOrder (some (usedMemberSyntax c4cur))
          (some (usedMemberSyntax c4prev)))) ↔
      getMemberParameterGroupIndex c4cur defaultConfig.memberSyntaxSortOrder <
        getMemberParameterGroupIndex c4prev defaultConfig.memberSyntaxSortOrder) :=
  ⟨⟨by decide, by decide, by decide, by decide⟩,
   c4_wrong_order_check defaultConfig c4prev c4cur
     (by decide) (by decide) (by decide) (by decide)⟩

/-! ### Claim C5: the alphabetical check -/

/-- C5: for an adjacent pair (prev `a`, cur `b`) with equal group indices
and not resolved by the type check, an `alphabeticalOrder` violation is
reported exactly when both case-normalized first local member names are
non-empty and `b`'s sorts strictly before `a`'s under UTF-16 code-unit
comparison (the first local member name being the first specifier's bound
name, or the module string when the declaration has no specifiers). -/
theorem c5_alphabetical_check : ∀ (cfg : Config) (a b : ImportDecl),
    (cfg.typeSortStrategy = TypeSortStrategy.mixed ∨ b.isType = a.isType) →
    getMemberParameterGroupIndex b cfg.memberSyntaxSortOrder =
      getMemberParameterGroupIndex a cfg.memberSyntaxSortOrder →
    ((checkPair cfg a b = some Report.alphabeticalOrder) ↔
      (normalizedFirstName cfg a ≠ "" ∧ normalizedFirstName cfg b ≠ "" ∧
       jsLt (normalizedFirstName cfg b) (normalizedFirstName cfg a) = true)) := by
  intro cfg a b hty heq
  have hnot : ¬(cfg.typeSortStrategy ≠ TypeSortStrategy.mixed ∧ b.isType ≠ a.isType) := by
    rcases hty with h | h
    · exact fun hc => hc.1 h
    · exact fun hc => hc.2 h
  have hnidx : ¬(getMemberParameterGroupIndex b cfg.memberSyntaxSortOrder ≠
      getMemberParameterGroupIndex a cfg.memberSyntaxSortOrder) := by
    simpa using heq
  by_cases hc : normalizedFirstName cfg a ≠ "" ∧ normalizedFirstName cfg b ≠ "" ∧
      jsLt (normalizedFirstName cfg b) (normalizedFirstName cfg a) = true
  · have he : checkPair cfg a b = some Report.alphabeticalOrder := by
      unfold checkPair
      rw [if_neg hnot, if_neg hnidx, if_pos hc]
    simp [he, hc]
  · have he : checkPair cfg a b = Option.none := by
      unfold checkPair
      rw [if_neg hnot, if_neg hnidx, if_neg hc]
    simp [he, hc]

def c5prev : ImportDecl :=
  { isType := false, specifiers := [Spec.defaultS "b"], sourceValue := "bm",
    preText := "import b from bm;", sepTexts := [], postText := "",
    rangeStart := 0, rangeEnd := 17, startLine := 1, endLine := 1 }

def c5cur : ImportDecl :=
  { isType := false, specifiers := [Spec.defaultS "a"], sourceValue := "am",
    preText := "import a from am;", sepTexts := [], postText := "",
    rangeStart := 18, rangeEnd := 35, startLine := 2, endLine := 2 }

theorem c5_alphabetical_check_witness :
    ((defaultConfig.typeSortStrategy = TypeSortStrategy.mixed ∨
      c5cur.isType = c5prev.isType) ∧
     getMemberParameterGroupIndex c5cur defaultConfig.memberSyntaxSortOrder =
       getMemberParameterGroupIndex c5prev defaultConfig.memberSyntaxSortOrder) ∧
    ((checkPair defaultConfig c5prev c5cur = some Report.alphabeticalOrder) ↔
      (normalizedFirstName defaultConfig c5prev ≠ "" ∧
       normalizedFirstName defaultConfig c5cur ≠ "" ∧
       jsLt (normalizedFirstName defaultConfig c5cur)
         (normalizedFirstName defaultConfig c5prev) = true)) :=
  ⟨⟨by decide, by decide⟩,
   c5_alphabetical_check defaultConfig c5prev c5cur (by decide) (by decide)⟩

/-! ### Claim C6: the member-sort check -/

/-- C6: unless `ignoreMemberSort` is set, scanning a declaration's named
specifiers in source order with case-normalized names, a
`memberAlphabetical` violation is reported exactly when some position's
name sorts strictly before its predecessor (first conjunct, stated via the
adjacent-pair chain); the reported member is the local name of the
specifier at the first such position, which is in bounds, descends from
its predecessor, and is minimal (second conjunct); and the check
contributes its report to the analysis for every declaration in the file,
regardless of adjacency to a predecessor (third conjunct). -/
theorem c6_member_alphabetical_check :
    (∀ (cfg : Config) (d : ImportDecl), cfg.ignoreMemberSort = false →
      ((memberCheck cfg d).isSome ↔
        ¬ List.Chain' (fun x y => jsGt x y = false)
          ((importSpecifiers d).map (fun s => getSortableName s cfg.ignoreCase)))) ∧
    (∀ (cfg : Config) (d : ImportDecl) (m : Report) (i : Nat),
      memberCheck cfg d = some m →
      firstUnsortedIndex
        ((importSpecifiers d).map (fun s => getSortableName s cfg.ignoreCase)) = some i →
      1 ≤ i ∧ i < (importSpecifiers d).length ∧
      jsGt ((((importSpecifiers d).map (fun s => getSortableName s cfg.ignoreCase)).get?
              (i - 1)).getD "")
           ((((importSpecifiers d).map (fun s => getSortableName s cfg.ignoreCase)).get?
              i).getD "") = true ∧
      (∀ j x y, j + 1 < i →
        ((importSpecifiers d).map (fun s => getSortableName s cfg.ignoreCase)).get? j =
          some x →
        ((importSpecifiers d).map (fun s => getSortableName s cfg.ignoreCase)).get? (j + 1) =
          some y →
        jsGt x y = false) ∧
      m = Report.memberAlphabetical
        ((((importSpecifiers d).get? i).map (fun s => s.localName)).getD "")) ∧
    (∀ (cfg : Config) (decls : List ImportDecl) (gaps : List String)
        (d : ImportDecl) (m : Report),
      d ∈ decls → memberCheck cfg d = some m →
      m ∈ (analyze cfg decls gaps).map Reported.report) := by
  refine ⟨?_, ?_, ?_⟩
  · intro cfg d h
    cases hf : firstUnsortedIndex
        ((importSpecifiers d).map (fun s => getSortableName s cfg.ignoreCase)) with
    | none =>
      have hch := (fui_none_iff _).mp hf
      simp [memberCheck, h, hf, hch]
    | some i =>
      have hne : ¬ List.Chain' (fun x y => jsGt x y = false)
          ((importSpecifiers d).map (fun s => getSortableName s cfg.ignoreCase)) := by
        intro hch
        rw [(fui_none_iff _).mpr hch] at hf
        simp at hf
      simp [memberCheck, h, hf, hne]
  · intro cfg d m i hm hf
    obtain ⟨h1, h2, ⟨x, y, hx, hy, hxy⟩, hmin⟩ := fui_some_spec _ i hf
    rw [List.length_map] at h2
    refine ⟨h1, h2, by rw [hx, hy]; simpa using hxy, hmin, ?_⟩
    unfold memberCheck at hm
    by_cases hims : cfg.ignoreMemberSort
    · rw [if_pos hims] at hm
      simp at hm
    · rw [if_neg hims, hf] at hm
      simp only [Option.some.injEq] at hm
      exact hm.symm
  · intro cfg decls gaps d m hd hm
    have hr := memberReported_eq cfg decls gaps d m hm
    have hmem := memberReported_mem_analyzeAux cfg decls gaps Option.none decls d _ hd hr
    simpa using List.mem_map_of_mem Reported.report hmem

def c6two : ImportDecl :=
  { isType := false,
    specifiers := [Spec.namedS ⟨"b", "b", false⟩, Spec.namedS ⟨"a", "a", false⟩],
    sourceValue := "fm",
    preText := "import \x7b", sepTexts := [", "], postText := "\x7d from fm;",
    rangeStart := 0, rangeEnd := 24, startLine := 1, endLine := 1 }

theorem c6_member_alphabetical_check_witness :
    (defaultConfig.ignoreMemberSort = false ∧
     ((memberCheck defaultConfig c6two).isSome ↔
       ¬ List.Chain' (fun x y => jsGt x y = false)
         ((importSpecifiers c6two).map
           (fun s => getSortableName s defaultConfig.ignoreCase)))) ∧
    (memberCheck defaultConfig c6two = some (Report.memberAlphabetical "a") ∧
     (1 ≤ 1 ∧ 1 < (importSpecifiers c6two).length ∧
      jsGt ((((importSpecifiers c6two).map
              (fun s => getSortableName s defaultConfig.ignoreCase)).get? (1 - 1)).getD "")
           ((((importSpecifiers c6two).map
              (fun s => getSortableName s defaultConfig.ignoreCase)).get? 1).getD "") =
        true ∧
      (∀ j x y, j + 1 < 1 →
        ((importSpecifiers c6two).map
          (fun s => getSortableName s defaultConfig.ignoreCase)).get? j = some x →
        ((importSpecifiers c6two).map
          (fun s => getSortableName s defaultConfig.ignoreCase)).get? (j + 1) = some y →
        jsGt x y = false) ∧
      Report.memberAlphabetical "a" = Report.memberAlphabetical
        ((((importSpecifiers c6two).get? 1).map (fun s => s.localName)).getD ""))) ∧
    (c6two ∈ [c6two] ∧
     Report.memberAlphabetical "a" ∈
       (analyze defaultConfig [c6two] []).map Reported.report) :=
  ⟨⟨by decide, c6_member_alphabetical_check.1 defaultConfig c6two (by decide)⟩,
   ⟨by decide,
    c6_member_alphabetical_check.2.1 defaultConfig c6two
      (Report.memberAlphabetical "a") 1 (by decide) (by decide)⟩,
   ⟨by decide,
    c6_member_alphabetical_check.2.2 defaultConfig [c6two] [] c6two
      (Report.memberAlphabetical "a") (by decide) (by decide)⟩⟩

/-! ### Claim C10: safety of the member scan -/

/-- C10: the member scan never flags position 0 (the comparison against
the nonexistent predecessor never fires): whenever it reports, the flagged
index is at least 1 and strictly below the named-specifier count, so the
flagged specifier and its predecessor are both in bounds; and a
declaration with zero or one named specifiers never produces a
`memberAlphabetical` report. -/
theorem c10_member_scan_safety : ∀ (cfg : Config) (d : ImportDecl),
    (∀ i, firstUnsortedIndex
        ((importSpecifiers d).map (fun s => getSortableName s cfg.ignoreCase)) = some i →
      1 ≤ i ∧ i < (importSpecifiers d).length) ∧
    ((importSpecifiers d).length ≤ 1 → memberCheck cfg d = Option.none) := by
  intro cfg d
  constructor
  · intro i hf
    obtain ⟨h1, h2, _, _⟩ := fui_some_spec _ i hf
    rw [List.length_map] at h2
    exact ⟨h1, h2⟩
  · intro hlen
    have hf : firstUnsortedIndex
        ((importSpecifiers d).map (fun s => getSortableName s cfg.ignoreCase)) =
          Option.none :=
      fui_short _ (by rw [List.length_map]; exact hlen)
    unfold memberCheck
    by_cases hims : cfg.ignoreMemberSort
    · rw [if_pos hims]
    · rw [if_neg hims, hf]

def c10one : ImportDecl :=
  { isType := false, specifiers := [Spec.namedS ⟨"a", "a", false⟩],
    sourceValue := "fm",
    preText := "import \x7b", sepTexts := [], postText := "\x7d from fm;",
    rangeStart := 0, rangeEnd := 21, startLine := 1, endLine := 1 }

def c10two : ImportDecl :=
  { isType := false,
    specifiers := [Spec.namedS ⟨"d", "d", false⟩, Spec.namedS ⟨"c", "c", false⟩],
    sourceValue := "gm",
    preText := "import \x7b", sepTexts := [", "], postText := "\x7d from gm;",
    rangeStart := 0, rangeEnd := 24, startLine := 1, endLine := 1 }

theorem c10_member_scan_safety_witness :
    (1 ≤ 1 ∧ 1 < (importSpecifiers c10two).length) ∧
    memberCheck defaultConfig c10one = Option.none :=
  ⟨(c10_member_scan_safety defaultConfig c10two).1 1 (by decide),
   (c10_member_scan_safety defaultConfig c10one).2 (by decide)⟩

/-! ### Claim C8: run isolation of the fix -/

theorem getLast?_split {α : Type} : ∀ (l : List α) (a : α), l.getLast? = some a →
    ∃ l', l = l' ++ [a]
  | [], _, h => by simp at h
  | [x], a, h => by
    simp only [List.getLast?_singleton, Option.some.injEq] at h
    exact ⟨[], by simp [h]⟩
  | x :: y :: rest, a, h => by
    rw [List.getLast?_cons_cons] at h
    obtain ⟨l', hl⟩ := getLast?_split (y :: rest) a h
    exact ⟨x :: l', by simp [hl]⟩

/-- C8: declarations on opposite sides of a run break are never reordered
by the fix: when a line gap separates the last declaration of `A` from the
first declaration of `B`, the fixed rendering of `A ++ B` consists of a
permutation of (the member-fixed) `A` followed by a permutation of (the
member-fixed) `B` — each sub-run is sorted independently and the sub-runs
are concatenated in original order. -/
theorem c8_run_isolation : ∀ (cfg : Config) (A B : List ImportDecl) (a b : ImportDecl),
    A.getLast? = some a → B.head? = some b → isLineBetween a b = true →
    (((fixedDecls cfg (A ++ B)).take A.length).Perm (A.map (memberFixDecl cfg)) ∧
     ((fixedDecls cfg (A ++ B)).drop A.length).Perm (B.map (memberFixDecl cfg))) := by
  intro cfg A B a b hA hB hbr
  obtain ⟨A', rfl⟩ := getLast?_split A a hA
  obtain ⟨B', rfl⟩ : ∃ B', B = b :: B' := by
    cases B with
    | nil => simp at hB
    | cons b' B' =>
      simp only [List.head?_cons, Option.some.injEq] at hB
      exact ⟨B', by rw [hB]⟩
  have hmap : ((A' ++ [a]) ++ (b :: B')).map (richFix cfg) =
      (A'.map (richFix cfg)) ++
        (richFix cfg a :: richFix cfg b :: B'.map (richFix cfg)) := by
    simp
  have hbrk : pairBrk (richFix cfg a) (richFix cfg b) = true := by
    simpa [pairBrk, richFix] using hbr
  have hsec : sectionsBy pairBrk (((A' ++ [a]) ++ (b :: B')).map (richFix cfg)) =
      sectionsBy pairBrk ((A'.map (richFix cfg)) ++ [richFix cfg a]) ++
      sectionsBy pairBrk (richFix cfg b :: B'.map (richFix cfg)) := by
    rw [hmap]
    exact sectionsBy_append pairBrk (richFix cfg a) (richFix cfg b)
      (B'.map (richFix cfg)) hbrk (A'.map (richFix cfg))
  have hsplit : fixedDecls cfg ((A' ++ [a]) ++ (b :: B')) =
      (((sectionsBy pairBrk ((A'.map (richFix cfg)) ++ [richFix cfg a])).map
          (sortJS (fun u v => declCmp cfg u.1 v.1))).flatten).map (fun u => u.2) ++
      (((sectionsBy pairBrk (richFix cfg b :: B'.map (richFix cfg))).map
          (sortJS (fun u v => declCmp cfg u.1 v.1))).flatten).map (fun u => u.2) := by
    unfold fixedDecls fixedPairs
    rw [hsec, List.map_append, List.flatten_append, List.map_append]
  have hperm1 :
      ((((sectionsBy pairBrk ((A'.map (richFix cfg)) ++ [richFix cfg a])).map
          (sortJS (fun u v => declCmp cfg u.1 v.1))).flatten).map (fun u => u.2)).Perm
        ((A' ++ [a]).map (memberFixDecl cfg)) := by
    have p1 := flatten_map_sortJS_perm (fun u v : ImportDecl × ImportDecl =>
      declCmp cfg u.1 v.1) (sectionsBy pairBrk ((A'.map (richFix cfg)) ++ [richFix cfg a]))
    rw [sectionsBy_flatten] at p1
    have p2 := p1.map (fun u : ImportDecl × ImportDecl => u.2)
    refine p2.trans ?_
    rw [show (A'.map (richFix cfg)) ++ [richFix cfg a] = (A' ++ [a]).map (richFix cfg) from
      by simp]
    rw [List.map_map]
    rfl
  have hperm2 :
      ((((sectionsBy pairBrk (richFix cfg b :: B'.map (richFix cfg))).map
          (sortJS (fun u v => declCmp cfg u.1 v.1))).flatten).map (fun u => u.2)).Perm
        ((b :: B').map (memberFixDecl cfg)) := by
    have p1 := flatten_map_sortJS_perm (fun u v : ImportDecl × ImportDecl =>
      declCmp cfg u.1 v.1) (sectionsBy pairBrk (richFix cfg b :: B'.map (richFix cfg)))
    rw [sectionsBy_flatten] at p1
    have p2 := p1.map (fun u : ImportDecl × ImportDecl => u.2)
    refine p2.trans ?_
    rw [show richFix cfg b :: B'.map (richFix cfg) = (b :: B').map (richFix cfg) from
      by simp]
    rw [List.map_map]
    rfl
  have hlen1 :
      ((((sectionsBy pairBrk ((A'.map (richFix cfg)) ++ [richFix cfg a])).map
          (sortJS (fun u v => declCmp cfg u.1 v.1))).flatten).map (fun u => u.2)).length =
        (A' ++ [a]).length := by
    rw [hperm1.length_eq, List.length_map]
  constructor
  · rw [hsplit, ← hlen1, List.take_left]
    exact hperm1
  · rw [hsplit, ← hlen1, List.drop_left]
    exact hperm2

def c8a : ImportDecl :=
  { isType := false, specifiers := [Spec.defaultS "b"], sourceValue := "bm",
    preText := "import b from bm;", sepTexts := [], postText := "",
    rangeStart := 0, rangeEnd := 17, startLine := 1, endLine := 1 }

def c8b : ImportDecl :=
  { isType := false, specifiers := [Spec.defaultS "a"], sourceValue := "am",
    preText := "import a from am;", sepTexts := [], postText := "",
    rangeStart := 19, rangeEnd := 36, startLine := 3, endLine := 3 }

theorem c8_run_isolation_witness :
    ([c8a].getLast? = some c8a ∧ [c8b].head? = some c8b ∧
     isLineBetween c8a c8b = true) ∧
    (((fixedDecls defaultConfig ([c8a] ++ [c8b])).take [c8a].length).Perm
        ([c8a].map (memberFixDecl defaultConfig)) ∧
     ((fixedDecls defaultConfig ([c8a] ++ [c8b])).drop [c8a].length).Perm
        ([c8b].map (memberFixDecl defaultConfig))) :=
  ⟨⟨by decide, by decide, by decide⟩,
   c8_run_isolation defaultConfig [c8a] [c8b] c8a c8b (by decide) (by decide) (by decide)⟩

/-! ### Claim C9: stability of the sorts -/

/-- C9: the sorts used by the fix are stable.  Two declarations of the
same run that compare equal under the comparator cascade (which reads the
original nodes) keep their original relative order in the fixed output;
and two named specifiers whose case-normalized names tie keep their
original relative order in the specifier sort. -/
theorem c9_stable_sort :
    (∀ (cfg : Config) (decls : List ImportDecl)
        (u v w : List (ImportDecl × ImportDecl)) (ra rb : ImportDecl × ImportDecl),
      (u ++ ra :: (v ++ rb :: w)) ∈ sectionsBy pairBrk (decls.map (richFix cfg)) →
      declCmp cfg ra.1 rb.1 = 0 →
      List.Sublist [ra.2, rb.2] (fixedDecls cfg decls)) ∧
    (∀ (ic : Bool) (u v w : List NamedSpec) (s t : NamedSpec),
      getSortableName s ic = getSortableName t ic →
      List.Sublist [s, t] (sortJS (specCmp ic) (u ++ s :: (v ++ t :: w)))) := by
  constructor
  · intro cfg decls u v w ra rb hs hc
    have h1 : List.Sublist [ra, rb]
        (sortJS (fun x y => declCmp cfg x.1 y.1) (u ++ ra :: (v ++ rb :: w))) :=
      sortJS_stable _ u v w ra rb (by omega)
    have h2 : List.Sublist [ra, rb] (fixedPairs cfg decls) :=
      sublist_flatten_of_mem _ _ hs h1
    have h3 := h2.map (fun x : ImportDecl × ImportDecl => x.2)
    simpa [fixedDecls] using h3
  · intro ic u v w s t hname
    apply sortJS_stable
    simp [specCmp, hname, jsGt_self]

def c9w1 : ImportDecl :=
  { isType := false, specifiers := [], sourceValue := "",
    preText := "import \"\";", sepTexts := [], postText := "",
    rangeStart := 0, rangeEnd := 10, startLine := 1, endLine := 1 }

def c9w2 : ImportDecl :=
  { isType := false, specifiers := [], sourceValue := "zz",
    preText := "import \"zz\";", sepTexts := [], postText := "",
    rangeStart := 11, rangeEnd := 23, startLine := 2, endLine := 2 }

def c9s : NamedSpec := ⟨"a", "a", false⟩

def c9t : NamedSpec := ⟨"a", "a2", false⟩

theorem c9_stable_sort_witness :
    (([] ++ (c9w1, c9w1) :: ([] ++ (c9w2, c9w2) :: [])) ∈
        sectionsBy pairBrk ([c9w1, c9w2].map (richFix defaultConfig)) ∧
     declCmp defaultConfig c9w1 c9w2 = 0 ∧
     List.Sublist [c9w1, c9w2] (fixedDecls defaultConfig [c9w1, c9w2])) ∧
    (getSortableName c9s false = getSortableName c9t false ∧
     List.Sublist [c9s, c9t] (sortJS (specCmp false) ([] ++ c9s :: ([] ++ c9t :: [])))) :=
  ⟨⟨by decide, by decide,
    c9_stable_sort.1 defaultConfig [c9w1, c9w2] [] [] [] (c9w1, c9w1) (c9w2, c9w2)
      (by decide) (by decide)⟩,
   ⟨by decide, c9_stable_sort.2 false [] [] [] c9s c9t (by decide)⟩⟩

/-! ### Claim C1: the byte range replaced by a fix -/

/-- C1 (amended): every emitted fix replaces the byte range from the start
of the first import declaration of the whole file to the end of the
last import declaration of the whole file — the span of all import
declarations, which can extend beyond the run containing the violation —
with the re-rendered text of all runs. -/
theorem c1_fix_range : ∀ (cfg : Config) (decls : List ImportDecl) (gaps : List String)
    (r : Reported) (p : (Nat × Nat) × String),
    r ∈ analyze cfg decls gaps → r.fix = some p →
    p.1 = (((decls.head?.map ImportDecl.rangeStart).getD 0),
           ((decls.getLast?.map ImportDecl.rangeEnd).getD 0)) ∧
    p.2 = sortAndFixAllNodes cfg decls gaps := by
  intro cfg decls gaps r p hr hp
  rcases analyzeAux_fix cfg decls gaps Option.none decls r hr with h | h
  · rw [h] at hp
    simp at hp
  · rw [hp] at h
    unfold fullFix at h
    cases hh : decls.head? with
    | none => rw [hh] at h; simp at h
    | some a =>
      cases hl : decls.getLast? with
      | none => rw [hh, hl] at h; simp at h
      | some b =>
        rw [hh, hl] at h
        simp only [Option.some.injEq] at h
        subst h
        simp [hh, hl]

def c1d1 : ImportDecl :=
  { isType := false, specifiers := [Spec.defaultS "b"], sourceValue := "bjs",
    preText := "import b from bjs;", sepTexts := [], postText := "",
    rangeStart := 0, rangeEnd := 18, startLine := 1, endLine := 1 }

def c1d2 : ImportDecl :=
  { isType := false, specifiers := [Spec.defaultS "a"], sourceValue := "ajs",
    preText := "import a from ajs;", sepTexts := [], postText := "",
    rangeStart := 19, rangeEnd := 37, startLine := 2, endLine := 2 }

def c1d3 : ImportDecl :=
  { isType := false, specifiers := [Spec.defaultS "c"], sourceValue := "cjs",
    preText := "import c from cjs;", sepTexts := [], postText := "",
    rangeStart := 39, rangeEnd := 57, startLine := 4, endLine := 4 }

def c1decls : List ImportDecl := [c1d1, c1d2, c1d3]

def c1gaps : List String := ["\n", "\n\n"]

/-- C1 as stated is false: on a file with two runs, the single violation
lies in the first run R = [c1d1, c1d2], which ends at byte 37, yet the fix
attached to that violation replaces bytes 0 through 57 — the span of all
three declarations — touching the bytes of the second run outside R. -/
theorem c1_counterexample :
    (analyze defaultConfig c1decls c1gaps).map Reported.report =
      [Report.alphabeticalOrder] ∧
    (analyze defaultConfig c1decls c1gaps).map Reported.fix =
      [some ((0, 57), sortAndFixAllNodes defaultConfig c1decls c1gaps)] ∧
    sectionsBy isLineBetween c1decls = [[c1d1, c1d2], [c1d3]] ∧
    c1d2.rangeEnd = 37 ∧ c1d3.rangeEnd = 57 ∧ (37 : Nat) < 57 :=
  ⟨by decide, by decide, by decide, by decide, by decide, by decide⟩

theorem c1_fix_range_witness :
    ((⟨Report.alphabeticalOrder,
        some ((0, 57), sortAndFixAllNodes defaultConfig c1decls c1gaps)⟩ : Reported) ∈
      analyze defaultConfig c1decls c1gaps) ∧
    (((0, 57), sortAndFixAllNodes defaultConfig c1decls c1gaps).1 =
        (((c1decls.head?.map ImportDecl.rangeStart).getD 0),
         ((c1decls.getLast?.map ImportDecl.rangeEnd).getD 0)) ∧
     ((0, 57), sortAndFixAllNodes defaultConfig c1decls c1gaps).2 =
        sortAndFixAllNodes defaultConfig c1decls c1gaps) :=
  ⟨by decide,
   c1_fix_range defaultConfig c1decls c1gaps
     ⟨Report.alphabeticalOrder,
      some ((0, 57), sortAndFixAllNodes defaultConfig c1decls c1gaps)⟩
     ((0, 57), sortAndFixAllNodes defaultConfig c1decls c1gaps) (by decide) rfl⟩

/-! ### Claim C2: the comment guard on specifier reordering -/

/-- C2 (amended): the comment guard exists only in the fixer of the
`memberAlphabetical` report, and it nulls that report's entire fix (not
only a specifier portion): whenever the reported declaration has a named
specifier with an adjacent comment, the `memberAlphabetical` report's fix
is null.  Fixes attached to the other violation kinds reorder specifiers
regardless of comments, as the counterexample shows. -/
theorem c2_member_fix_comment_guard : ∀ (cfg : Config) (decls : List ImportDecl)
    (gaps : List String) (d : ImportDecl) (r : Reported),
    (importSpecifiers d).any (fun s => s.hasComment) = true →
    memberReported cfg decls gaps d = some r → r.fix = Option.none := by
  intro cfg decls gaps d r hc hm
  unfold memberReported at hm
  cases hmc : memberCheck cfg d with
  | none => rw [hmc] at hm; simp at hm
  | some rep =>
    rw [hmc] at hm
    simp only [Option.map_some', Option.some.injEq] at hm
    rw [← hm]
    simp [hc]

def c2e1 : ImportDecl :=
  { isType := false,
    specifiers := [Spec.namedS ⟨"c", "c", false⟩, Spec.namedS ⟨"d", "d", false⟩],
    sourceValue := "n",
    preText := "import \x7b", sepTexts := [", "], postText := "\x7d from n;",
    rangeStart := 0, rangeEnd := 23, startLine := 1, endLine := 1 }

def c2e2 : ImportDecl :=
  { isType := false,
    specifiers := [Spec.namedS ⟨"b", "b", true⟩, Spec.namedS ⟨"a", "a", false⟩],
    sourceValue := "m",
    preText := "import \x7b", sepTexts := [" /*x*/, "], postText := "\x7d from m;",
    rangeStart := 24, rangeEnd := 53, startLine := 2, endLine := 2 }

def c2decls : List ImportDecl := [c2e1, c2e2]

def c2gaps : List String := ["\n"]

/-- C2 as stated is false: declaration c2e2 has a comment attached to its
first named specifier and its specifiers are unsorted (["b", "a"]); the
`alphabeticalOrder` violation on the pair carries a non-null fix whose
rendering reorders c2e2's specifiers to ["a", "b"] anyway (dragging the
comment separator along), so not every synthesized fix leaves a
comment-carrying declaration's specifier order untouched — only the
`memberAlphabetical` report's own fix is suppressed. -/
theorem c2_counterexample :
    (analyze defaultConfig c2decls c2gaps).map Reported.report =
      [Report.alphabeticalOrder, Report.memberAlphabetical "a"] ∧
    (analyze defaultConfig c2decls c2gaps).map Reported.fix =
      [some ((0, 53), sortAndFixAllNodes defaultConfig c2decls c2gaps), Option.none] ∧
    (importSpecifiers c2e2).map NamedSpec.hasComment = [true, false] ∧
    (importSpecifiers c2e2).map NamedSpec.localName = ["b", "a"] ∧
    (fixedDecls defaultConfig c2decls).map
        (fun d => (importSpecifiers d).map NamedSpec.localName) =
      [["a", "b"], ["c", "d"]] ∧
    sortAndFixAllNodes defaultConfig c2decls c2gaps =
      "import \x7ba /*x*/, b\x7d from m;\nimport \x7bc, d\x7d from n;" :=
  ⟨by decide, by decide, by decide, by decide, by decide, by decide⟩

theorem c2_member_fix_comment_guard_witness :
    (importSpecifiers c2e2).any (fun s => s.hasComment) = true ∧
    (⟨Report.memberAlphabetical "a", Option.none⟩ : Reported).fix = Option.none :=
  ⟨by decide,
   c2_member_fix_comment_guard defaultConfig c2decls c2gaps c2e2
     ⟨Report.memberAlphabetical "a", Option.none⟩ (by decide) (by decide)⟩

/-! ### Claim C7: the fix is not idempotent -/

def c7d1 : ImportDecl :=
  { isType := false,
    specifiers := [Spec.namedS ⟨"b", "b", false⟩, Spec.namedS ⟨"a", "a", false⟩],
    sourceValue := "x",
    preText := "import \x7b", sepTexts := [", "], postText := "\x7d from x;",
    rangeStart := 0, rangeEnd := 23, startLine := 1, endLine := 1 }

def c7d2 : ImportDecl :=
  { isType := false,
    specifiers := [Spec.namedS ⟨"aa", "aa", false⟩, Spec.namedS ⟨"zz", "zz", false⟩],
    sourceValue := "y",
    preText := "import \x7b", sepTexts := [", "], postText := "\x7d from y;",
    rangeStart := 24, rangeEnd := 49, startLine := 2, endLine := 2 }

def c7decls : List ImportDecl := [c7d1, c7d2]

def c7gaps : List String := ["\n"]

/-- C7 is violated by the code: on the adjacent pair c7d1 (named
specifiers b, a — unsorted — from module x) and c7d2 (specifiers aa, zz
from module y), the rule reports memberAlphabetical and
alphabeticalOrder; the fix member-sorts c7d1 (whose first specifier
becomes "a") but orders the run by the original nodes' first names ("b"
against "aa"), placing the module-y import first; re-running the analysis
on the fixed source still reports an alphabeticalOrder violation, because
"a" now sorts before "aa". -/
theorem c7_fix_not_idempotent :
    (analyze defaultConfig c7decls c7gaps).map Reported.report =
      [Report.memberAlphabetical "a", Report.alphabeticalOrder] ∧
    sortAndFixAllNodes defaultConfig c7decls c7gaps =
      "import \x7baa, zz\x7d from y;\nimport \x7ba, b\x7d from x;" ∧
    (analyze defaultConfig (fixedFile defaultConfig c7decls c7gaps) c7gaps).map
        Reported.report = [Report.alphabeticalOrder] :=
  ⟨by decide, by decide, by decide⟩
